import Mathlib

/-!
Verification of the `container_of` crate: a Rust port of the C `container_of`
macro.  The macro expands to
`$ptr.cast::<u8>().sub(offset_of!($type, $field)).cast::<$type>()`,
turning a pointer to a field of a `#[repr(C)]` struct into a pointer to the
struct itself.  We embed the repr(C) layout algorithm, raw pointers (address,
pointee size, mutability, provenance) and the macro's three primitive steps,
and prove the crate's documented properties about them.
-/

/-- Memory layout of a Rust type on the build target: its size and alignment in bytes. -/
structure Layout where
  size : Nat
  align : Nat
deriving Repr, DecidableEq

/-- Layout of Rust `u8`: one byte, one-byte aligned. -/
def u8Layout : Layout := ⟨1, 1⟩

/-- Layout of Rust `i32` on the x86-64 build target: four bytes, four-byte aligned. -/
def i32Layout : Layout := ⟨4, 4⟩

/-- A `#[repr(C)]` struct: its fields in declaration order, each a field name paired
with the layout of the field's type. -/
structure ReprCStruct where
  fields : List (String × Layout)
deriving Repr, DecidableEq

/-- Round `off` up to the next multiple of `a`: the padding rule of the C layout
algorithm ( `(a - off % a) % a` padding bytes are inserted). -/
def alignUp (off a : Nat) : Nat := off + (a - off % a) % a

/-- Association-list lookup by field name. -/
def lookupField {α : Type} (f : String) : List (String × α) → Option α
  | [] => none
  | (n, a) :: rest => if n = f then some a else lookupField f rest

/-- The repr(C) placement algorithm: starting from offset `k`, each field is placed at
the current offset rounded up to the field's alignment, and the offset then advances
past the field. -/
def layoutOffsets : Nat → List (String × Layout) → List (String × Nat)
  | _, [] => []
  | k, (n, l) :: rest => (n, alignUp k l.align) :: layoutOffsets (alignUp k l.align + l.size) rest

/-- The offset just past the last field under the repr(C) placement starting at `k`. -/
def layoutEnd : Nat → List (String × Layout) → Nat
  | k, [] => k
  | k, (_, l) :: rest => layoutEnd (alignUp k l.align + l.size) rest

/-- Alignment of a repr(C) struct: the greatest alignment among its fields (at least 1). -/
def structAlign (s : ReprCStruct) : Nat := s.fields.foldl (fun a f => max a f.2.align) 1

/-- Size of a repr(C) struct: the end of its last field rounded up to the struct's
alignment (trailing padding). -/
def structSize (s : ReprCStruct) : Nat := alignUp (layoutEnd 0 s.fields) (structAlign s)

/-- The layout of a repr(C) struct type itself. -/
def structLayout (s : ReprCStruct) : Layout := ⟨structSize s, structAlign s⟩

/-- `memoffset::offset_of!(type, field)`: the byte offset of the named field in the
struct's repr(C) layout.  `none` models the build-time error raised when the field
does not exist on the struct. -/
def offset_of (s : ReprCStruct) (f : String) : Option Nat :=
  lookupField f (layoutOffsets 0 s.fields)

/-- An allocated object: base address and size in bytes.  Carried by every pointer as
its provenance. -/
structure Alloc where
  base : Nat
  size : Nat
deriving Repr, DecidableEq

/-- A raw Rust pointer: its address, the size of its pointee type (changed by casts),
its mutability (`*mut` vs `*const`), and the allocated object it derives from. -/
structure RawPtr where
  addr : Nat
  elemSize : Nat
  isMut : Bool
  alloc : Alloc
deriving Repr, DecidableEq

/-- Rust raw-pointer cast `ptr.cast::<U>()`: same address, provenance and mutability,
new pointee type. -/
def RawPtr.cast (p : RawPtr) (elem : Layout) : RawPtr := { p with elemSize := elem.size }

/-- Rust `pointer::sub(count)`: moves the pointer back `count * size_of::<pointee>()`
bytes.  Per its documented contract the call is undefined behavior (modelled as
`none`) unless the starting and resulting addresses both lie within the pointer's
allocated object and the subtraction does not wrap. -/
def RawPtr.sub (p : RawPtr) (count : Nat) : Option RawPtr :=
  if count * p.elemSize ≤ p.addr ∧ p.alloc.base ≤ p.addr - count * p.elemSize ∧
      p.addr ≤ p.alloc.base + p.alloc.size then
    some { p with addr := p.addr - count * p.elemSize }
  else
    none

/-- Failure outcomes of the `container_of` macro: a build-time error (unknown field)
or undefined behavior of the pointer arithmetic. -/
inductive PtrErr where
  | compileError
  | undefinedBehavior
deriving Repr, DecidableEq

/-- The `container_of` macro:
`$ptr.cast::<u8>().sub(offset_of!($type, $field)).cast::<$type>()`. -/
def container_of (ptr : RawPtr) (ty : ReprCStruct) (field : String) : Except PtrErr RawPtr :=
  match offset_of ty field with
  | none => .error .compileError
  | some off =>
    match (ptr.cast u8Layout).sub off with
    | none => .error .undefinedBehavior
    | some q => .ok (q.cast (structLayout ty))

/-- Byte-addressable program memory. -/
def Mem : Type := Nat → Nat

/-- `ptr.cast` with the program memory threaded through: a pointer cast touches no
memory. -/
def RawPtr.castIn (m : Mem) (p : RawPtr) (elem : Layout) : RawPtr × Mem := (p.cast elem, m)

/-- `pointer::sub` with the program memory threaded through: pointer arithmetic
touches no memory. -/
def RawPtr.subIn (m : Mem) (p : RawPtr) (count : Nat) : Option RawPtr × Mem := (p.sub count, m)

/-- The `container_of` macro as a computation over program memory, composed from the
memory-threaded primitives in the same order as the macro expansion. -/
def container_of_in (m : Mem) (ptr : RawPtr) (ty : ReprCStruct) (field : String) :
    Except PtrErr RawPtr × Mem :=
  match offset_of ty field with
  | none => (.error .compileError, m)
  | some off =>
    match ptr.castIn m u8Layout with
    | (q, m1) =>
      match q.subIn m1 off with
      | (none, m2) => (.error .undefinedBehavior, m2)
      | (some r, m2) =>
        match r.castIn m2 (structLayout ty) with
        | (s, m3) => (.ok s, m3)

/-- The pointer `&instance.field` for a live instance of `ty` based at address `base`,
with the given mutability: its address is `base` plus the field's offset, its pointee
is the field's type, and its provenance is the instance's own allocation. -/
def fieldPtr (ty : ReprCStruct) (base : Nat) (f : String) (mt : Bool) : Option RawPtr :=
  match offset_of ty f, lookupField f ty.fields with
  | some off, some l => some ⟨base + off, l.size, mt, ⟨base, structSize ty⟩⟩
  | _, _ => none

/-- The crate's test struct `#[repr(C)] struct Wrapper<T> { foo: i32, bar: u8, inner: T }`,
as a function of the layout of the instantiation `T`. -/
def Wrapper (t : Layout) : ReprCStruct := ⟨[("foo", i32Layout), ("bar", u8Layout), ("inner", t)]⟩

/-! Layout lemmas: every field offset lies within the struct. -/

lemma le_alignUp (k a : Nat) : k ≤ alignUp k a := Nat.le_add_right _ _

lemma le_layoutEnd (l : List (String × Layout)) : ∀ k : Nat, k ≤ layoutEnd k l := by
  induction l with
  | nil => intro k; exact le_refl k
  | cons hd tl ih =>
    intro k
    calc k ≤ alignUp k hd.2.align + hd.2.size :=
          le_trans (le_alignUp k hd.2.align) (Nat.le_add_right _ _)
      _ ≤ layoutEnd (alignUp k hd.2.align + hd.2.size) tl := ih _
      _ = layoutEnd k (hd :: tl) := by cases hd; rfl

lemma mem_layoutOffsets_le (l : List (String × Layout)) :
    ∀ (k : Nat) (f : String) (o : Nat), (f, o) ∈ layoutOffsets k l → o ≤ layoutEnd k l := by
  induction l with
  | nil => intro k f o h; simp [layoutOffsets] at h
  | cons hd tl ih =>
    intro k f o h
    cases hd with
    | mk n a =>
      simp only [layoutOffsets, List.mem_cons] at h
      cases h with
      | inl h =>
        have ho : o = alignUp k a.align := congrArg Prod.snd h
        rw [ho]
        calc alignUp k a.align ≤ alignUp k a.align + a.size := Nat.le_add_right _ _
          _ ≤ layoutEnd (alignUp k a.align + a.size) tl := le_layoutEnd tl _
          _ = layoutEnd k ((n, a) :: tl) := rfl
      | inr h => exact ih _ f o h

lemma lookupField_mem {α : Type} {f : String} {a : α} :
    ∀ {l : List (String × α)}, lookupField f l = some a → (f, a) ∈ l := by
  intro l
  induction l with
  | nil => intro h; simp [lookupField] at h
  | cons hd tl ih =>
    intro h
    cases hd with
    | mk n x =>
      simp only [lookupField] at h
      split at h
      · rename_i hn
        cases h
        rw [hn]
        exact List.mem_cons_self _ _
      · exact List.mem_cons_of_mem _ (ih h)

lemma offset_le_structSize {ty : ReprCStruct} {f : String} {o : Nat}
    (h : offset_of ty f = some o) : o ≤ structSize ty :=
  le_trans (mem_layoutOffsets_le ty.fields 0 f o (lookupField_mem h))
    (le_alignUp (layoutEnd 0 ty.fields) (structAlign ty))

lemma layoutOffsets_names (l : List (String × Layout)) :
    ∀ k : Nat, (layoutOffsets k l).map Prod.fst = l.map Prod.fst := by
  induction l with
  | nil => intro k; rfl
  | cons hd tl ih =>
    intro k
    cases hd with
    | mk n a => simp only [layoutOffsets, List.map_cons, ih]

lemma lookupField_of_not_mem {α : Type} {f : String} :
    ∀ {l : List (String × α)}, f ∉ l.map Prod.fst → lookupField f l = none := by
  intro l
  induction l with
  | nil => intro _; rfl
  | cons hd tl ih =>
    intro h
    cases hd with
    | mk n x =>
      simp only [List.map_cons, List.mem_cons] at h
      push_neg at h
      simp only [lookupField]
      rw [if_neg (fun hc => h.1 hc.symm)]
      exact ih h.2

lemma offset_of_of_not_mem {ty : ReprCStruct} {f : String}
    (h : f ∉ ty.fields.map Prod.fst) : offset_of ty f = none := by
  unfold offset_of
  apply lookupField_of_not_mem
  rw [layoutOffsets_names]
  exact h

/-! The memory-threaded macro agrees with the pure one and leaves memory alone. -/

lemma container_of_in_eq (m : Mem) (p : RawPtr) (ty : ReprCStruct) (f : String) :
    container_of_in m p ty f = (container_of p ty f, m) := by
  unfold container_of_in container_of RawPtr.castIn RawPtr.subIn
  cases offset_of ty f with
  | none => rfl
  | some off =>
    dsimp only
    cases (p.cast u8Layout).sub off with
    | none => rfl
    | some q => rfl

/-! Pointer-primitive lemmas. -/

lemma sub_eq_some {p : RawPtr} {c : Nat} {r : RawPtr} (h : p.sub c = some r) :
    c * p.elemSize ≤ p.addr ∧ p.alloc.base ≤ p.addr - c * p.elemSize ∧
      p.addr ≤ p.alloc.base + p.alloc.size ∧
      r = { p with addr := p.addr - c * p.elemSize } := by
  unfold RawPtr.sub at h
  split at h
  · rename_i hc
    exact ⟨hc.1, hc.2.1, hc.2.2, ((Option.some.injEq _ _).mp h).symm⟩
  · exact absurd h (by simp)

lemma sub_eq_some_of_bounds {p : RawPtr} {c : Nat}
    (h1 : c * p.elemSize ≤ p.addr) (h2 : p.alloc.base ≤ p.addr - c * p.elemSize)
    (h3 : p.addr ≤ p.alloc.base + p.alloc.size) :
    p.sub c = some { p with addr := p.addr - c * p.elemSize } := by
  unfold RawPtr.sub
  rw [if_pos ⟨h1, h2, h3⟩]

/-- Core round-trip lemma: the field pointer of a live instance, fed back through the
macro, yields exactly the pointer to the instance. -/
lemma fieldPtr_roundTrip {ty : ReprCStruct} {base : Nat} {f : String} {mt : Bool}
    {p : RawPtr} (h : fieldPtr ty base f mt = some p) :
    container_of p ty f = .ok ⟨base, structSize ty, mt, ⟨base, structSize ty⟩⟩ := by
  unfold fieldPtr at h
  cases hoff : offset_of ty f with
  | none => rw [hoff] at h; exact absurd h (by simp)
  | some off =>
    rw [hoff] at h
    cases hl : lookupField f ty.fields with
    | none => rw [hl] at h; exact absurd h (by simp)
    | some l =>
      rw [hl] at h
      simp only [Option.some.injEq] at h
      subst h
      have hle : off ≤ structSize ty := offset_le_structSize hoff
      unfold container_of
      rw [hoff]
      dsimp only [RawPtr.cast, u8Layout]
      rw [sub_eq_some_of_bounds (p := ⟨base + off, 1, mt, ⟨base, structSize ty⟩⟩) (c := off)
          (by show off * 1 ≤ base + off; omega)
          (by show base ≤ base + off - off * 1; omega)
          (by show base + off ≤ base + structSize ty; omega)]
      dsimp only [RawPtr.cast, structLayout]
      have haddr : base + off - off * 1 = base := by omega
      rw [haddr]

/-- C1: Round-trip — for every live instance of a repr(C) aggregate `ty` based at
address `base` with a field `f` (including layouts where padding precedes `f`, since
`layoutOffsets` aligns every field), feeding the field pointer `&instance.f` through
`container_of` yields exactly the pointer to the instance itself. -/
theorem c1_round_trip (ty : ReprCStruct) (base : Nat) (f : String) (mt : Bool)
    (p : RawPtr) (h : fieldPtr ty base f mt = some p) :
    container_of p ty f = .ok ⟨base, structSize ty, mt, ⟨base, structSize ty⟩⟩ :=
  fieldPtr_roundTrip h

/-- Witness for C1 at the padded instantiation `Wrapper<i32>` (field offset 8, not
the unpadded 5) based at address 100. -/
theorem c1_round_trip_witness :
    container_of ⟨108, 4, false, ⟨100, 12⟩⟩ (Wrapper i32Layout) "inner" =
      .ok ⟨100, 12, false, ⟨100, 12⟩⟩ :=
  c1_round_trip (Wrapper i32Layout) 100 "inner" false ⟨108, 4, false, ⟨100, 12⟩⟩
    (by decide)

/-- C2: the resulting pointer's address is the input address minus the byte offset of
the field — byte-granular because the macro first casts to `u8` (pointee size 1), so
`sub` is not scaled by the field's element size — and the whole computation is pure
address arithmetic: it returns the same value on any memory and leaves it unchanged. -/
theorem c2_pointer_transform (p : RawPtr) (ty : ReprCStruct) (f : String) (off : Nat)
    (q : RawPtr) (m : Mem) (h1 : offset_of ty f = some off)
    (h2 : container_of p ty f = .ok q) :
    q.addr = p.addr - off ∧ container_of_in m p ty f = (.ok q, m) := by
  constructor
  · unfold container_of at h2
    rw [h1] at h2
    dsimp only at h2
    cases hs : (p.cast u8Layout).sub off with
    | none => rw [hs] at h2; exact absurd h2 (by simp)
    | some r =>
      rw [hs] at h2
      simp only [Except.ok.injEq] at h2
      have hr := (sub_eq_some hs).2.2.2
      rw [← h2, hr]
      show (p.cast u8Layout).addr - off * (p.cast u8Layout).elemSize = p.addr - off
      dsimp only [RawPtr.cast, u8Layout]
      omega
  · rw [container_of_in_eq, h2]

/-- Witness for C2 at `Wrapper<i32>` based at 100: the field pointer at 108 comes
back at 108 - 8 = 100. -/
theorem c2_pointer_transform_witness :
    (⟨100, 12, false, ⟨100, 12⟩⟩ : RawPtr).addr =
        (⟨108, 4, false, ⟨100, 12⟩⟩ : RawPtr).addr - 8 ∧
      container_of_in (fun _ => 0) ⟨108, 4, false, ⟨100, 12⟩⟩ (Wrapper i32Layout) "inner" =
        (.ok ⟨100, 12, false, ⟨100, 12⟩⟩, fun _ => 0) :=
  c2_pointer_transform ⟨108, 4, false, ⟨100, 12⟩⟩ (Wrapper i32Layout) "inner" 8
    ⟨100, 12, false, ⟨100, 12⟩⟩ (fun _ => 0) (by decide) (by rfl)

/-- C3 counterexample: the claim says the operation is never undefined behavior for
any input pointer, but `pointer::sub` is itself undefined when the subtraction
leaves the pointer's allocated object.  A pointer at address 3 is not derived from
the `inner` field (offset 8) of any live `Wrapper<i32>`, and `container_of` on it is
already undefined behavior, before any dereference. -/
theorem c3_claim_counterexample :
    container_of ⟨3, 4, false, ⟨0, 100⟩⟩ (Wrapper i32Layout) "inner" =
      .error .undefinedBehavior := by rfl

/-- C3 (amended): the operation never dereferences — it is pure address arithmetic
that returns the same value on any memory and leaves memory unchanged — and it is
well-defined whenever the subtracted address stays inside the input pointer's
allocation (as it always does for a pointer genuinely derived from the field of a
live instance); only outside those bounds can the arithmetic itself be undefined. -/
theorem c3_in_bounds_defined (p : RawPtr) (ty : ReprCStruct) (f : String) (off : Nat)
    (m : Mem) (h1 : offset_of ty f = some off) (h2 : off ≤ p.addr)
    (h3 : p.alloc.base ≤ p.addr - off) (h4 : p.addr ≤ p.alloc.base + p.alloc.size) :
    container_of p ty f = .ok (⟨p.addr - off, structSize ty, p.isMut, p.alloc⟩ : RawPtr) ∧
      container_of_in m p ty f =
        (.ok (⟨p.addr - off, structSize ty, p.isMut, p.alloc⟩ : RawPtr), m) := by
  have hmain : container_of p ty f =
      .ok (⟨p.addr - off, structSize ty, p.isMut, p.alloc⟩ : RawPtr) := by
    unfold container_of
    rw [h1]
    dsimp only
    rw [sub_eq_some_of_bounds (p := p.cast u8Layout) (c := off)
        (by show off * 1 ≤ p.addr; omega)
        (by show p.alloc.base ≤ p.addr - off * 1; omega)
        (by show p.addr ≤ p.alloc.base + p.alloc.size; omega)]
    dsimp only [RawPtr.cast, structLayout, u8Layout]
    rw [show p.addr - off * 1 = p.addr - off from by omega]
  exact ⟨hmain, by rw [container_of_in_eq, hmain]⟩

/-- Witness for C3's amended statement at `Wrapper<i32>` based at 200. -/
theorem c3_in_bounds_defined_witness :
    container_of ⟨208, 4, true, ⟨200, 12⟩⟩ (Wrapper i32Layout) "inner" =
        .ok (⟨200, 12, true, ⟨200, 12⟩⟩ : RawPtr) ∧
      container_of_in (fun _ => 0) ⟨208, 4, true, ⟨200, 12⟩⟩ (Wrapper i32Layout) "inner" =
        (.ok (⟨200, 12, true, ⟨200, 12⟩⟩ : RawPtr), fun _ => 0) :=
  c3_in_bounds_defined ⟨208, 4, true, ⟨200, 12⟩⟩ (Wrapper i32Layout) "inner" 8
    (fun _ => 0) (by decide) (by decide) (by decide) (by decide)

/-- C4: mutability symmetry — whenever `container_of` produces a pointer, that
pointer carries exactly the mutability of the input pointer (`*const` in gives
`*const` out, `*mut` in gives `*mut` out), since both casts and `sub` preserve it. -/
theorem c4_mutability_symmetry (p : RawPtr) (ty : ReprCStruct) (f : String)
    (q : RawPtr) (h : container_of p ty f = .ok q) : q.isMut = p.isMut := by
  unfold container_of at h
  cases hoff : offset_of ty f with
  | none => rw [hoff] at h; exact absurd h (by simp)
  | some off =>
    rw [hoff] at h
    dsimp only at h
    cases hs : (p.cast u8Layout).sub off with
    | none => rw [hs] at h; exact absurd h (by simp)
    | some r =>
      rw [hs] at h
      simp only [Except.ok.injEq] at h
      have hr := (sub_eq_some hs).2.2.2
      rw [← h, hr]
      rfl

/-- Witness for C4 at `Wrapper<u8>` based at 100, once with a `*const` input and once
with a `*mut` input. -/
theorem c4_mutability_symmetry_witness :
    (⟨100, 8, false, ⟨100, 8⟩⟩ : RawPtr).isMut = (⟨105, 1, false, ⟨100, 8⟩⟩ : RawPtr).isMut ∧
      (⟨100, 8, true, ⟨100, 8⟩⟩ : RawPtr).isMut = (⟨105, 1, true, ⟨100, 8⟩⟩ : RawPtr).isMut :=
  ⟨c4_mutability_symmetry ⟨105, 1, false, ⟨100, 8⟩⟩ (Wrapper u8Layout) "inner"
      ⟨100, 8, false, ⟨100, 8⟩⟩ (by rfl),
    c4_mutability_symmetry ⟨105, 1, true, ⟨100, 8⟩⟩ (Wrapper u8Layout) "inner"
      ⟨100, 8, true, ⟨100, 8⟩⟩ (by rfl)⟩

/-- C5: zero-offset case — when `f` is the first-declared field of the aggregate its
computed offset is 0 (the first field needs no preceding padding), the field pointer
of a live instance sits at the instance's own base address, and the aggregate pointer
returned by `container_of` has numerically that same address (with the aggregate's
type). -/
theorem c5_zero_offset (f : String) (l : Layout) (rest : List (String × Layout))
    (base : Nat) (mt : Bool) :
    offset_of ⟨(f, l) :: rest⟩ f = some 0 ∧
      fieldPtr ⟨(f, l) :: rest⟩ base f mt =
        some ⟨base, l.size, mt, ⟨base, structSize ⟨(f, l) :: rest⟩⟩⟩ ∧
      container_of ⟨base, l.size, mt, ⟨base, structSize ⟨(f, l) :: rest⟩⟩⟩
          ⟨(f, l) :: rest⟩ f =
        .ok ⟨base, structSize ⟨(f, l) :: rest⟩, mt, ⟨base, structSize ⟨(f, l) :: rest⟩⟩⟩ := by
  have hA : alignUp 0 l.align = 0 := by simp [alignUp, Nat.mod_self]
  have hoff : offset_of ⟨(f, l) :: rest⟩ f = some 0 := by
    unfold offset_of layoutOffsets
    rw [hA]
    simp [lookupField]
  have hfp : fieldPtr ⟨(f, l) :: rest⟩ base f mt =
      some ⟨base, l.size, mt, ⟨base, structSize ⟨(f, l) :: rest⟩⟩⟩ := by
    unfold fieldPtr
    rw [hoff]
    simp [lookupField]
  exact ⟨hoff, hfp, fieldPtr_roundTrip hfp⟩

/-- C6: the byte offset `offset_of` assigns to a field is determined by the type and
field alone — two live instances at different base addresses, with different
mutabilities, induce field pointers at the same non-negative (`Nat`) displacement
from their respective bases, and that displacement is exactly `offset_of`. -/
theorem c6_offset_constant (ty : ReprCStruct) (f : String) (b1 b2 : Nat)
    (m1 m2 : Bool) (p1 p2 : RawPtr)
    (h1 : fieldPtr ty b1 f m1 = some p1) (h2 : fieldPtr ty b2 f m2 = some p2) :
    offset_of ty f = some (p1.addr - b1) ∧ p1.addr - b1 = p2.addr - b2 := by
  unfold fieldPtr at h1 h2
  cases hoff : offset_of ty f with
  | none => rw [hoff] at h1; exact absurd h1 (by simp)
  | some off =>
    rw [hoff] at h1 h2
    cases hl : lookupField f ty.fields with
    | none => rw [hl] at h1; exact absurd h1 (by simp)
    | some l =>
      rw [hl] at h1 h2
      simp only [Option.some.injEq] at h1 h2
      rw [← h1, ← h2]
      show some off = some (b1 + off - b1) ∧ b1 + off - b1 = b2 + off - b2
      constructor
      · rw [show b1 + off - b1 = off from by omega]
      · omega

/-- Witness for C6: two `Wrapper<i32>` instances at bases 100 and 200, one via a
`*const` and one via a `*mut` field pointer, yield the same offset 8. -/
theorem c6_offset_constant_witness :
    offset_of (Wrapper i32Layout) "inner" =
        some ((⟨108, 4, false, ⟨100, 12⟩⟩ : RawPtr).addr - 100) ∧
      (⟨108, 4, false, ⟨100, 12⟩⟩ : RawPtr).addr - 100 =
        (⟨208, 4, true, ⟨200, 12⟩⟩ : RawPtr).addr - 200 :=
  c6_offset_constant (Wrapper i32Layout) "inner" 100 200 false true
    ⟨108, 4, false, ⟨100, 12⟩⟩ ⟨208, 4, true, ⟨200, 12⟩⟩ (by decide) (by decide)

/-- C7: no side effects — running the macro's expansion over any program memory
returns that memory unchanged: nothing is read, written, allocated or freed. -/
theorem c7_no_side_effects (m : Mem) (p : RawPtr) (ty : ReprCStruct) (f : String) :
    (container_of_in m p ty f).2 = m := by
  rw [container_of_in_eq]

/-- C8: referencing a field name not declared on the aggregate is rejected by the
offset computer itself — `offset_of` yields its build-time failure, `container_of`
propagates it, and nothing runs at runtime: memory is untouched and no fallback
value is produced. -/
theorem c8_unknown_field_build_error (ty : ReprCStruct) (f : String) (p : RawPtr)
    (m : Mem) (h : f ∉ ty.fields.map Prod.fst) :
    offset_of ty f = none ∧ container_of p ty f = .error .compileError ∧
      container_of_in m p ty f = (.error .compileError, m) := by
  have hoff := offset_of_of_not_mem h
  have hco : container_of p ty f = .error .compileError := by
    unfold container_of
    rw [hoff]
  exact ⟨hoff, hco, by rw [container_of_in_eq, hco]⟩

/-- Witness for C8: the field name `nope` does not exist on `Wrapper<u8>`. -/
theorem c8_unknown_field_build_error_witness :
    offset_of (Wrapper u8Layout) "nope" = none ∧
      container_of ⟨0, 1, false, ⟨0, 8⟩⟩ (Wrapper u8Layout) "nope" = .error .compileError ∧
      container_of_in (fun _ => 0) ⟨0, 1, false, ⟨0, 8⟩⟩ (Wrapper u8Layout) "nope" =
        (.error .compileError, fun _ => 0) :=
  c8_unknown_field_build_error (Wrapper u8Layout) "nope" ⟨0, 1, false, ⟨0, 8⟩⟩
    (fun _ => 0) (by decide)

/-- C9: determinism — the result of the macro is a pure function of the input
pointer, aggregate type and field name: it coincides with the pure `container_of`
and is identical no matter what program memory (shared state) it runs over. -/
theorem c9_determinism (m1 m2 : Mem) (p : RawPtr) (ty : ReprCStruct) (f : String) :
    (container_of_in m1 p ty f).1 = container_of p ty f ∧
      (container_of_in m1 p ty f).1 = (container_of_in m2 p ty f).1 := by
  rw [container_of_in_eq, container_of_in_eq]
  exact ⟨rfl, rfl⟩

/-- C10: generic instantiations — `Wrapper<u8>` and `Wrapper<i32>` place `inner` at
different offsets (5 without padding, 8 with three padding bytes after `bar`), and
the round trip through `container_of` recovers the instance base separately for each
instantiation, at every base address and mutability. -/
theorem c10_generic_instantiations (base : Nat) (mt : Bool) :
    offset_of (Wrapper u8Layout) "inner" = some 5 ∧
      offset_of (Wrapper i32Layout) "inner" = some 8 ∧
      fieldPtr (Wrapper u8Layout) base "inner" mt = some ⟨base + 5, 1, mt, ⟨base, 8⟩⟩ ∧
      container_of ⟨base + 5, 1, mt, ⟨base, 8⟩⟩ (Wrapper u8Layout) "inner" =
        .ok ⟨base, 8, mt, ⟨base, 8⟩⟩ ∧
      fieldPtr (Wrapper i32Layout) base "inner" mt = some ⟨base + 8, 4, mt, ⟨base, 12⟩⟩ ∧
      container_of ⟨base + 8, 4, mt, ⟨base, 12⟩⟩ (Wrapper i32Layout) "inner" =
        .ok ⟨base, 12, mt, ⟨base, 12⟩⟩ := by
  have h8 : fieldPtr (Wrapper u8Layout) base "inner" mt =
      some ⟨base + 5, 1, mt, ⟨base, 8⟩⟩ := by rfl
  have h12 : fieldPtr (Wrapper i32Layout) base "inner" mt =
      some ⟨base + 8, 4, mt, ⟨base, 12⟩⟩ := by rfl
  exact ⟨by decide, by decide, h8, fieldPtr_roundTrip h8, h12, fieldPtr_roundTrip h12⟩
